import Mathlib

/-!
Verification of the catalog view controller in static/app.js.

The controller is embedded shallowly: DOM nodes become the inductive
type RNode, the side effects performed by the controller (network
requests, clearing the visible container, appending nodes, writing an
input's value, re-invoking the load cycle) become an effect trace
List Eff, and each JavaScript function becomes a Lean function that
returns the trace it performs.  The fetch of /api/data is modelled by
passing the fetch outcome (an Except value: parse or network failure,
or the decoded catalog) to load as an argument.
-/

/-- Item as decoded from the catalog JSON: a display name and a url. -/
structure Item where
  name : String
  url : String
deriving DecidableEq

/-- Catalog: Object.entries of the fetched JSON object, i.e. the ordered
list of category name / item list pairs. -/
abbrev Catalog := List (String × List Item)

/-- Network request issued by the controller.  Mutation bodies are flat
JSON objects with string values; they are modelled as the ordered list
of key/value pairs produced by JSON.stringify. -/
inductive Request where
  | get : String → Request
  | post : (path : String) → (contentType : String) → (body : List (String × String)) → Request
deriving DecidableEq

/-- Click handler installed on a control, as captured by the closure at
render time.  addItemInputs carries only the category: the two text
fields are read at click time. -/
inductive Handler where
  | delItem : (category : String) → (name : String) → Handler
  | addItemInputs : (category : String) → Handler
  | delCategory : (category : String) → Handler
deriving DecidableEq

/-- One li of the item list: the anchor markup assigned to innerHTML,
plus the Delete button appended to the li with its click handler. -/
structure ItemRow where
  html : String
  deleteLabel : String
  onDelete : Handler
deriving DecidableEq

/-- Rendered DOM node appended to the content container. -/
inductive RNode where
  | heading : String → RNode
  | itemList : List ItemRow → RNode
  | textInput : (placeholder : String) → RNode
  | button : (label : String) → Handler → RNode
deriving DecidableEq

/-- Effect performed by the controller, in execution order. -/
inductive Eff where
  | request : Request → Eff
  | clear : Eff
  | append : RNode → Eff
  | setValue : (elemId : String) → (v : String) → Eff
  | invokeLoad : Eff
deriving DecidableEq

/-- The template literal assigned to li.innerHTML: the url and name are
interpolated into the anchor markup verbatim, with no escaping. -/
def anchorHtml (url name : String) : String :=
  "<a href=\"" ++ url ++ "\" target=\"_blank\">" ++ name ++ "</a>"

/-- One li as built inside the items.forEach loop of load. -/
def mkRow (cat : String) (item : Item) : ItemRow :=
  { html := anchorHtml item.url item.name
    deleteLabel := "Delete"
    onDelete := Handler.delItem cat item.name }

/-- Container-level appends performed for one category by the
Object.entries(data).forEach body of load, in source order: heading,
item list (the li rows accumulated by items.forEach), name field,
url field, Add button, Delete Category button. -/
def sectionEffs (p : String × List Item) : List Eff :=
  [Eff.append (RNode.heading p.1),
   Eff.append (RNode.itemList (p.2.foldl (fun acc it => acc ++ [mkRow p.1 it]) [])),
   Eff.append (RNode.textInput "Name"),
   Eff.append (RNode.textInput "URL"),
   Eff.append (RNode.button "Add" (Handler.addItemInputs p.1)),
   Eff.append (RNode.button "Delete Category" (Handler.delCategory p.1))]

/-- Effects of the rendering loop of load over the whole catalog. -/
def renderEffs (d : Catalog) : List Eff :=
  d.foldl (fun acc p => acc ++ sectionEffs p) []

/-- load: fetch /api/data, decode it, clear the container, then render
every category.  The fetch outcome is the argument; on a fetch or parse
failure the exception propagates (there is no try/catch in load), so
only the request effect has happened and the error escapes. -/
def load (fetchResult : Except String Catalog) : List Eff × Except String Unit :=
  match fetchResult with
  | Except.error e => ([Eff.request (Request.get "/api/data")], Except.error e)
  | Except.ok d => (Eff.request (Request.get "/api/data") :: Eff.clear :: renderEffs d, Except.ok ())

/-- addCategory: read the new-cat input (its current value is the
argument v), POST it, clear the input, call load.  The response body is
awaited but never inspected. -/
def addCategory (v : String) (_resp : String) : List Eff :=
  [Eff.request (Request.post "/api/add_category" "application/json" [("name", v)]),
   Eff.setValue "new-cat" "",
   Eff.invokeLoad]

/-- deleteCategory name: POST the category name, then call load. -/
def deleteCategory (name : String) (_resp : String) : List Eff :=
  [Eff.request (Request.post "/api/delete_category" "application/json" [("name", name)]),
   Eff.invokeLoad]

/-- addItem category name url: POST all three fields, then call load. -/
def addItem (category name url : String) (_resp : String) : List Eff :=
  [Eff.request (Request.post "/api/add_item" "application/json"
      [("category", category), ("name", name), ("url", url)]),
   Eff.invokeLoad]

/-- deleteItem category name: POST the pair, then call load. -/
def deleteItem (category name : String) (_resp : String) : List Eff :=
  [Eff.request (Request.post "/api/delete_item" "application/json"
      [("category", category), ("name", name)]),
   Eff.invokeLoad]

/-- Clicking a control runs its handler: the delete handlers use only
the keys captured at render time, the add handler additionally reads
the two text fields at click time (nameVal, urlVal). -/
def dispatch (h : Handler) (nameVal urlVal resp : String) : List Eff :=
  match h with
  | Handler.delItem c n => deleteItem c n resp
  | Handler.addItemInputs c => addItem c nameVal urlVal resp
  | Handler.delCategory c => deleteCategory c resp

/-- Interpretation of one effect on the content container. -/
def applyEff (dom : List RNode) (e : Eff) : List RNode :=
  match e with
  | Eff.clear => []
  | Eff.append n => dom ++ [n]
  | _ => dom

/-- Interpretation of a trace on the content container. -/
def applyEffs (dom : List RNode) (l : List Eff) : List RNode :=
  l.foldl applyEff dom

/-- Container contents after a successful load of catalog d, starting
from previous contents prev. -/
def domAfterLoad (prev : List RNode) (d : Catalog) : List RNode :=
  applyEffs prev (load (Except.ok d)).1

/-- Requests occurring in a trace, in order. -/
def requestsOf (l : List Eff) : List Request :=
  l.filterMap (fun e => match e with | Eff.request r => some r | _ => none)

/-- Nodes rendered for one category, as the specification describes the
section: heading, the item rows in item order, name field, url field,
submit control, delete-category control. -/
def sectionNodes (p : String × List Item) : List RNode :=
  [RNode.heading p.1,
   RNode.itemList (p.2.map (fun it => mkRow p.1 it)),
   RNode.textInput "Name",
   RNode.textInput "URL",
   RNode.button "Add" (Handler.addItemInputs p.1),
   RNode.button "Delete Category" (Handler.delCategory p.1)]

/-- Concatenation of the section nodes of every category, in catalog
order: the rendering the specification describes. -/
def sectionsOf : Catalog → List RNode
  | [] => []
  | p :: rest => sectionNodes p ++ sectionsOf rest

/-- Modelled from the spec: the server-side delete-item operation.  The
server code is not under src; section 3 of the spec says the item name
is the natural key for delete operations within a category, section 8
requires that deleting in one category never removes items of another,
and that a second identical delete is a no-op.  So the operation removes
exactly the items with the given name from the category with the given
name, leaving every other category entry untouched. -/
def serverDeleteItem (st : Catalog) (category name : String) : Catalog :=
  st.map (fun p =>
    if p.1 = category then (p.1, p.2.filter (fun it => it.name != name)) else p)

/-- Minimal model of how the browser reads the href attribute value out
of markup assigned to innerHTML: scan for the first occurrence of the
six characters of the href attribute opener, then take the value up to
the closing double quote. -/
def hrefAttr : List Char → Option (List Char)
  | 'h' :: 'r' :: 'e' :: 'f' :: '=' :: '"' :: rest => some (rest.takeWhile (fun c => c != '"'))
  | _ :: rest => hrefAttr rest
  | [] => none

/-- Minimal model of how the browser finds the close of the opening tag
of markup assigned to innerHTML: the Bool records whether the scan is
currently inside a double-quoted attribute value, a greater-than sign
inside a double-quoted attribute value does not close the tag, and once
the tag is closed the element's text is the character data up to the
next tag open. -/
def firstTagTextAux : Bool → List Char → Option (List Char)
  | _, [] => none
  | true, c :: rest =>
      if c = '"' then firstTagTextAux false rest else firstTagTextAux true rest
  | false, c :: rest =>
      if c = '"' then firstTagTextAux true rest
      else if c = '>' then some (rest.takeWhile (fun x => x != '<'))
      else firstTagTextAux false rest

/-- Text of the first element of the markup: scan for the close of the
opening tag starting outside any quoted attribute value, then take the
character data up to the next tag open. -/
def firstTagText (l : List Char) : Option (List Char) :=
  firstTagTextAux false l

/-- Href attribute value of an item row's anchor, as the browser sees it. -/
def linkHref (s : String) : Option String :=
  (hrefAttr s.toList).map (fun l => String.mk l)

/-- Literal link text of an item row's anchor, as the browser sees it. -/
def linkText (s : String) : Option String :=
  (firstTagText s.toList).map (fun l => String.mk l)

lemma toList_append (s t : String) : (s ++ t).toList = s.toList ++ t.toList := rfl

lemma takeWhile_stop {α : Type} (p : α → Bool) :
    ∀ (l1 : List α), (∀ c ∈ l1, p c = true) → ∀ (x : α) (l2 : List α), p x = false →
      (l1 ++ x :: l2).takeWhile p = l1 := by
  intro l1
  induction l1 with
  | nil =>
      intro _ x l2 hx
      simp [List.takeWhile_cons, hx]
  | cons c cs ih =>
      intro hall x l2 hx
      have hc : p c = true := hall c (by simp)
      simp [List.takeWhile_cons, hc, ih (fun a ha => hall a (by simp [ha])) x l2 hx]

lemma hrefAttr_at (rest : List Char) :
    hrefAttr ('<' :: 'a' :: ' ' :: 'h' :: 'r' :: 'e' :: 'f' :: '=' :: '"' :: rest)
      = some (rest.takeWhile (fun c => c != '"')) := rfl

lemma firstTagTextAux_false_cons (c : Char) (t : List Char) (h1 : c ≠ '"') (h2 : c ≠ '>') :
    firstTagTextAux false (c :: t) = firstTagTextAux false t := by
  simp [firstTagTextAux, h1, h2]

lemma firstTagTextAux_true_cons (c : Char) (t : List Char) (h : c ≠ '"') :
    firstTagTextAux true (c :: t) = firstTagTextAux true t := by
  simp [firstTagTextAux, h]

lemma firstTagTextAux_enterQuote (t : List Char) :
    firstTagTextAux false ('"' :: t) = firstTagTextAux true t := by
  simp [firstTagTextAux]

lemma firstTagTextAux_leaveQuote (t : List Char) :
    firstTagTextAux true ('"' :: t) = firstTagTextAux false t := by
  simp [firstTagTextAux]

lemma firstTagTextAux_tagClose (t : List Char) :
    firstTagTextAux false ('>' :: t) = some (t.takeWhile (fun x => x != '<')) := by
  simp [firstTagTextAux]

lemma firstTagTextAux_false_skip : ∀ (l1 : List Char), (∀ c ∈ l1, c ≠ '"' ∧ c ≠ '>') →
    ∀ (l2 : List Char), firstTagTextAux false (l1 ++ l2) = firstTagTextAux false l2 := by
  intro l1
  induction l1 with
  | nil => intro _ l2; rfl
  | cons c cs ih =>
      intro hall l2
      have hc := hall c (by simp)
      rw [List.cons_append, firstTagTextAux_false_cons c _ hc.1 hc.2]
      exact ih (fun a ha => hall a (by simp [ha])) l2

lemma firstTagTextAux_true_skip : ∀ (l1 : List Char), (∀ c ∈ l1, c ≠ '"') →
    ∀ (l2 : List Char), firstTagTextAux true (l1 ++ l2) = firstTagTextAux true l2 := by
  intro l1
  induction l1 with
  | nil => intro _ l2; rfl
  | cons c cs ih =>
      intro hall l2
      have hc : c ≠ '"' := hall c (by simp)
      rw [List.cons_append, firstTagTextAux_true_cons c _ hc]
      exact ih (fun a ha => hall a (by simp [ha])) l2

lemma linkHref_anchor (url name : String) (h : '"' ∉ url.toList) :
    linkHref (anchorHtml url name) = some url := by
  have hsplit : (anchorHtml url name).toList
      = '<' :: 'a' :: ' ' :: 'h' :: 'r' :: 'e' :: 'f' :: '=' :: '"' ::
        (url.toList ++ '"' ::
          (" target=\"_blank\">".toList ++ (name.toList ++ "</a>".toList))) := by
    simp only [anchorHtml, toList_append]
    rw [show "<a href=\"".toList = ['<', 'a', ' ', 'h', 'r', 'e', 'f', '=', '"'] from rfl,
        show "\" target=\"_blank\">".toList = '"' :: " target=\"_blank\">".toList from rfl]
    simp [List.append_assoc]
  have hall : ∀ c ∈ url.toList, (c != '"') = true := by
    intro c hc
    have hne : c ≠ '"' := fun he => h (he ▸ hc)
    simpa using hne
  have hx : (('"' : Char) != '"') = false := by decide
  simp only [linkHref, hsplit, hrefAttr_at]
  rw [takeWhile_stop _ url.toList hall '"' _ hx]
  rfl

lemma linkText_anchor (url name : String) (hq : '"' ∉ url.toList) (hn : '<' ∉ name.toList) :
    linkText (anchorHtml url name) = some name := by
  have hsplit : (anchorHtml url name).toList
      = ['<', 'a', ' ', 'h', 'r', 'e', 'f', '='] ++
        ('"' :: (url.toList ++
          ('"' :: ([' ', 't', 'a', 'r', 'g', 'e', 't', '='] ++
            ('"' :: (['_', 'b', 'l', 'a', 'n', 'k'] ++
              ('"' :: ('>' :: (name.toList ++ ['<', '/', 'a', '>']))))))))) := by
    simp only [anchorHtml, toList_append]
    rw [show "<a href=\"".toList = ['<', 'a', ' ', 'h', 'r', 'e', 'f', '=', '"'] from rfl,
        show "\" target=\"_blank\">".toList
          = ['"', ' ', 't', 'a', 'r', 'g', 'e', 't', '=', '"', '_', 'b', 'l', 'a', 'n', 'k', '"', '>']
          from rfl,
        show "</a>".toList = ['<', '/', 'a', '>'] from rfl]
    simp [List.append_assoc]
  have hurl : ∀ c ∈ url.toList, c ≠ '"' := fun c hc he => hq (he ▸ hc)
  have hnall : ∀ c ∈ name.toList, (c != '<') = true := by
    intro c hc
    have hne : c ≠ '<' := fun he => hn (he ▸ hc)
    simpa using hne
  have hx : (('<' : Char) != '<') = false := by decide
  simp only [linkText, firstTagText, hsplit]
  rw [firstTagTextAux_false_skip ['<', 'a', ' ', 'h', 'r', 'e', 'f', '='] (by decide)]
  rw [firstTagTextAux_enterQuote]
  rw [firstTagTextAux_true_skip url.toList hurl]
  rw [firstTagTextAux_leaveQuote]
  rw [firstTagTextAux_false_skip [' ', 't', 'a', 'r', 'g', 'e', 't', '='] (by decide)]
  rw [firstTagTextAux_enterQuote]
  rw [firstTagTextAux_true_skip ['_', 'b', 'l', 'a', 'n', 'k'] (by decide)]
  rw [firstTagTextAux_leaveQuote, firstTagTextAux_tagClose]
  rw [show name.toList ++ ['<', '/', 'a', '>'] = name.toList ++ '<' :: ['/', 'a', '>'] from rfl]
  rw [takeWhile_stop _ name.toList hnall '<' _ hx]
  rfl

lemma foldl_append_flat {α β : Type} (g : α → List β) :
    ∀ (l : List α) (acc : List β),
      l.foldl (fun a x => a ++ g x) acc = acc ++ (l.map g).flatten := by
  intro l
  induction l with
  | nil => intro acc; simp
  | cons x xs ih =>
      intro acc
      simp only [List.foldl_cons, ih, List.map_cons, List.flatten_cons, List.append_assoc]

lemma flatten_map_singleton {α β : Type} (f : α → β) :
    ∀ l : List α, (l.map (fun x => [f x])).flatten = l.map f := by
  intro l
  induction l with
  | nil => rfl
  | cons x xs ih => simp only [List.map_cons, List.flatten_cons, ih]; rfl

lemma buildRows_eq_map (cat : String) (items : List Item) :
    items.foldl (fun acc it => acc ++ [mkRow cat it]) [] = items.map (mkRow cat) := by
  rw [foldl_append_flat (fun it => [mkRow cat it]) items [], flatten_map_singleton]
  rfl

lemma applyEffs_append (dom : List RNode) (l1 l2 : List Eff) :
    applyEffs dom (l1 ++ l2) = applyEffs (applyEffs dom l1) l2 := by
  simp [applyEffs, List.foldl_append]

lemma applyEffs_sectionEffs (dom : List RNode) (p : String × List Item) :
    applyEffs dom (sectionEffs p) = dom ++ sectionNodes p := by
  simp [applyEffs, sectionEffs, sectionNodes, applyEff, buildRows_eq_map, List.append_assoc]

lemma applyEffs_renderEffs : ∀ (d : Catalog) (dom : List RNode),
    applyEffs dom (renderEffs d) = dom ++ sectionsOf d := by
  have main : ∀ (d : Catalog) (acc : List Eff) (dom : List RNode),
      applyEffs dom (d.foldl (fun a p => a ++ sectionEffs p) acc)
        = applyEffs dom acc ++ sectionsOf d := by
    intro d
    induction d with
    | nil => intro acc dom; simp [sectionsOf]
    | cons p rest ih =>
        intro acc dom
        simp only [List.foldl_cons, ih, sectionsOf]
        rw [applyEffs_append, applyEffs_sectionEffs, List.append_assoc]
  intro d dom
  have h := main d [] dom
  rw [renderEffs, h]
  rfl

lemma domAfterLoad_sections (prev : List RNode) (d : Catalog) :
    domAfterLoad prev d = sectionsOf d := by
  show applyEffs prev (Eff.request (Request.get "/api/data") :: Eff.clear :: renderEffs d)
      = sectionsOf d
  show applyEffs (applyEff (applyEff prev (Eff.request (Request.get "/api/data"))) Eff.clear)
      (renderEffs d) = sectionsOf d
  rw [applyEffs_renderEffs]
  rfl

lemma mem_sectionsOf : ∀ (d : Catalog) (p : String × List Item) (x : RNode),
    p ∈ d → x ∈ sectionNodes p → x ∈ sectionsOf d := by
  intro d
  induction d with
  | nil => intro p x hp _; cases hp
  | cons q rest ih =>
      intro p x hp hx
      rw [sectionsOf]
      rcases List.mem_cons.mp hp with h | h
      · subst h; exact List.mem_append_left _ hx
      · exact List.mem_append_right _ (ih p x h hx)

lemma requestsOf_append (l1 l2 : List Eff) :
    requestsOf (l1 ++ l2) = requestsOf l1 ++ requestsOf l2 := by
  simp [requestsOf]

lemma requestsOf_sectionEffs (p : String × List Item) : requestsOf (sectionEffs p) = [] := by
  simp [requestsOf, sectionEffs]

lemma requestsOf_renderEffs (d : Catalog) : requestsOf (renderEffs d) = [] := by
  have main : ∀ (d : Catalog) (acc : List Eff),
      requestsOf (List.foldl (fun a p => a ++ sectionEffs p) acc d) = requestsOf acc := by
    intro d
    induction d with
    | nil => intro acc; rfl
    | cons p rest ih =>
        intro acc
        rw [List.foldl_cons, ih, requestsOf_append, requestsOf_sectionEffs, List.append_nil]
  exact (main d []).trans rfl

lemma renderEffs_append_only (d : Catalog) :
    ∀ e ∈ renderEffs d, ∃ node, e = Eff.append node := by
  have main : ∀ (d : Catalog) (acc : List Eff),
      (∀ e ∈ acc, ∃ node, e = Eff.append node) →
      ∀ e ∈ List.foldl (fun a p => a ++ sectionEffs p) acc d, ∃ node, e = Eff.append node := by
    intro d
    induction d with
    | nil => intro acc hacc e he; exact hacc e he
    | cons p rest ih =>
        intro acc hacc e he
        refine ih (acc ++ sectionEffs p) ?_ e (by simpa using he)
        intro x hx
        rcases List.mem_append.mp hx with hx | hx
        · exact hacc x hx
        · simp only [sectionEffs, List.mem_cons, List.not_mem_nil, or_false] at hx
          rcases hx with h | h | h | h | h | h <;> exact ⟨_, h⟩
  intro e he
  exact main d [] (by intro x hx; cases hx) e he

lemma filter_self_idem {α : Type} (q : α → Bool) :
    ∀ l : List α, (l.filter q).filter q = l.filter q := by
  intro l
  induction l with
  | nil => rfl
  | cons a t ih =>
      cases h : q a <;> simp [List.filter_cons, h, ih]

/-- Claim C2: for every fetched catalog, load renders the categories in
the order returned, and for each category emits, in order: a heading
with the category name; a list with one row per item in item order,
each row an anchor built from the item's name and url with a new-window
target plus a per-item Delete control; an add-item group of a Name
field, a URL field and an Add control; and a Delete Category control.
This is stated as: the container contents after any load equal the
per-category section nodes, concatenated in catalog order, regardless
of the previous container contents. -/
theorem C2_render_structure (prev : List RNode) (d : Catalog) :
    domAfterLoad prev d = sectionsOf d :=
  domAfterLoad_sections prev d

/-- Claim C3: each mutation function issues exactly one POST to its
endpoint with content type application/json and exactly the specified
JSON body, never inspects the response body (its trace is independent
of the response), and afterwards triggers load (the final effect of
its trace). -/
theorem C3_mutation_requests (v catg n u r r' : String) :
    (requestsOf (addCategory v r)
        = [Request.post "/api/add_category" "application/json" [("name", v)]] ∧
      (addCategory v r).getLast? = some Eff.invokeLoad ∧
      addCategory v r = addCategory v r') ∧
    (requestsOf (deleteCategory n r)
        = [Request.post "/api/delete_category" "application/json" [("name", n)]] ∧
      (deleteCategory n r).getLast? = some Eff.invokeLoad ∧
      deleteCategory n r = deleteCategory n r') ∧
    (requestsOf (addItem catg n u r)
        = [Request.post "/api/add_item" "application/json"
            [("category", catg), ("name", n), ("url", u)]] ∧
      (addItem catg n u r).getLast? = some Eff.invokeLoad ∧
      addItem catg n u r = addItem catg n u r') ∧
    (requestsOf (deleteItem catg n r)
        = [Request.post "/api/delete_item" "application/json"
            [("category", catg), ("name", n)]] ∧
      (deleteItem catg n r).getLast? = some Eff.invokeLoad ∧
      deleteItem catg n r = deleteItem catg n r') :=
  ⟨⟨rfl, rfl, rfl⟩, ⟨rfl, rfl, rfl⟩, ⟨rfl, rfl, rfl⟩, ⟨rfl, rfl, rfl⟩⟩

/-- Claim C4: load has no error path.  When the fetch or parse of
/api/data fails, the failure propagates out of load uncaught, and the
only effect that has happened is the request itself: the container is
not touched, so whatever was displayed before stays (possibly stale or
blank), and no diagnostic is produced. -/
theorem C4_load_error_uncaught (e : String) (prev : List RNode) :
    load (Except.error e) = ([Eff.request (Request.get "/api/data")], Except.error e) ∧
    applyEffs prev (load (Except.error e)).1 = prev :=
  ⟨rfl, rfl⟩

/-- Claim C5: for every value v currently held by the new-category
input, addCategory submits a creation request whose body carries
name = v (v may be empty; the universal quantifier covers it, there is
no client-side validation), then sets that input to the empty string,
then triggers load, in exactly that order. -/
theorem C5_addCategory_trace (v r : String) :
    addCategory v r
      = [Eff.request (Request.post "/api/add_category" "application/json" [("name", v)]),
         Eff.setValue "new-cat" "",
         Eff.invokeLoad] :=
  rfl

/-- Claim C6: every load empties the visible container before appending
any new content: the trace of a successful load is the fetch request,
then the clear, then nothing but appends; consequently the resulting
container (and the handlers carried by its nodes) is independent of
whatever a previous render had left there. -/
theorem C6_clear_before_render (prev : List RNode) (d : Catalog) :
    (∃ l, (load (Except.ok d)).1 = Eff.request (Request.get "/api/data") :: Eff.clear :: l ∧
      ∀ e ∈ l, ∃ node, e = Eff.append node) ∧
    domAfterLoad prev d = domAfterLoad [] d := by
  refine ⟨⟨renderEffs d, rfl, renderEffs_append_only d⟩, ?_⟩
  rw [domAfterLoad_sections, domAfterLoad_sections]

/-- Claim C7: deleteItem identifies its target by the category and name
pair (both are in the request body), and on the server model the delete
scoped to category c leaves every entry of any other category c'
unchanged, so the subsequently rendered catalog still shows all of
c' 's items. -/
theorem C7_no_cross_category_leakage (st : Catalog) (c c' n : String) (prev : List RNode)
    (hne : c' ≠ c) :
    requestsOf (deleteItem c n "")
      = [Request.post "/api/delete_item" "application/json" [("category", c), ("name", n)]] ∧
    (serverDeleteItem st c n).filter (fun p => p.1 == c') = st.filter (fun p => p.1 == c') ∧
    ∀ items', (c', items') ∈ st →
      RNode.itemList (items'.map (mkRow c')) ∈ domAfterLoad prev (serverDeleteItem st c n) := by
  refine ⟨rfl, ?_, ?_⟩
  · induction st with
    | nil => rfl
    | cons p rest ih =>
        simp only [serverDeleteItem, List.map_cons] at ih ⊢
        by_cases hp : p.1 = c
        · have hpc : (p.1 == c') = false := by
            simp only [beq_eq_false_iff_ne, ne_eq]
            intro hcontra
            exact hne (hcontra.symm.trans hp)
          rw [if_pos hp]
          simp only [List.filter_cons, hpc]
          simp only [hp, hpc] at *
          exact ih
        · rw [if_neg hp]
          simp only [List.filter_cons]
          cases hq : (p.1 == c') <;> simp [ih]
  · intro items' hmem'
    have hfp : (c', items') ∈ serverDeleteItem st c n := by
      refine List.mem_map.mpr ⟨(c', items'), hmem', ?_⟩
      simp [hne]
    rw [domAfterLoad_sections]
    exact mem_sectionsOf _ (c', items') _ hfp (by simp [sectionNodes])

/-- Claim C8: deleting the same item twice leaves the server catalog in
the same state as deleting it once (the filter on the target category
is idempotent), and the controller behaves identically on the second
call: its trace is a total function of category and name, independent
of the server response, so no error is raised. -/
theorem C8_delete_idempotent (st : Catalog) (c n r r' : String) :
    serverDeleteItem (serverDeleteItem st c n) c n = serverDeleteItem st c n ∧
    deleteItem c n r = deleteItem c n r' := by
  refine ⟨?_, rfl⟩
  induction st with
  | nil => rfl
  | cons p rest ih =>
      simp only [serverDeleteItem, List.map_cons] at ih ⊢
      refine congrArg₂ List.cons ?_ ih
      by_cases hp : p.1 = c
      · rw [if_pos hp]
        simp only [if_pos hp]
        rw [filter_self_idem]
      · rw [if_neg hp, if_neg hp]

/-- Claim C9: each rendered control carries the one click handler that
load installed on it, closed at render time over the category (and,
for item deletes, the item name) it was rendered for; activating the
control dispatches exactly the mutation request for that key, with the
add-item handler reading the two text fields only at click time. -/
theorem C9_handler_binding (prev : List RNode) (d : Catalog) (cat : String)
    (items : List Item) (nv uv r : String) (hmem : (cat, items) ∈ d) :
    (∃ rows, RNode.itemList rows ∈ domAfterLoad prev d ∧ rows = items.map (mkRow cat) ∧
      ∀ it ∈ items, (mkRow cat it).onDelete = Handler.delItem cat it.name ∧
        requestsOf (dispatch (Handler.delItem cat it.name) nv uv r)
          = [Request.post "/api/delete_item" "application/json"
              [("category", cat), ("name", it.name)]]) ∧
    (RNode.button "Add" (Handler.addItemInputs cat) ∈ domAfterLoad prev d ∧
      requestsOf (dispatch (Handler.addItemInputs cat) nv uv r)
        = [Request.post "/api/add_item" "application/json"
            [("category", cat), ("name", nv), ("url", uv)]]) ∧
    (RNode.button "Delete Category" (Handler.delCategory cat) ∈ domAfterLoad prev d ∧
      requestsOf (dispatch (Handler.delCategory cat) nv uv r)
        = [Request.post "/api/delete_category" "application/json" [("name", cat)]]) := by
  refine ⟨⟨items.map (mkRow cat), ?_, rfl, fun it _ => ⟨rfl, rfl⟩⟩, ⟨?_, rfl⟩, ⟨?_, rfl⟩⟩
  · rw [domAfterLoad_sections]
    exact mem_sectionsOf _ (cat, items) _ hmem (by simp [sectionNodes])
  · rw [domAfterLoad_sections]
    exact mem_sectionsOf _ (cat, items) _ hmem (by simp [sectionNodes])
  · rw [domAfterLoad_sections]
    exact mem_sectionsOf _ (cat, items) _ hmem (by simp [sectionNodes])

/-- Claim C10: load is read-only with respect to server state: its only
network request is the single GET of /api/data, it issues no POST at
all, and running a second load of the same catalog over the result of a
first one renders exactly the same container. -/
theorem C10_load_read_only (d : Catalog) (prev : List RNode) :
    requestsOf (load (Except.ok d)).1 = [Request.get "/api/data"] ∧
    (∀ path ct body, Request.post path ct body ∉ requestsOf (load (Except.ok d)).1) ∧
    domAfterLoad (domAfterLoad prev d) d = domAfterLoad prev d := by
  have hreq : requestsOf (load (Except.ok d)).1 = [Request.get "/api/data"] := by
    show requestsOf (Eff.request (Request.get "/api/data") :: Eff.clear :: renderEffs d)
        = [Request.get "/api/data"]
    have h1 : requestsOf (Eff.request (Request.get "/api/data") :: Eff.clear :: renderEffs d)
        = Request.get "/api/data" :: requestsOf (renderEffs d) := by
      simp [requestsOf]
    rw [h1, requestsOf_renderEffs]
  refine ⟨hreq, ?_, ?_⟩
  · intro path ct body hmem
    rw [hreq] at hmem
    simp at hmem
  · rw [domAfterLoad_sections, domAfterLoad_sections]

/-- Claim C1 (amended): for every fetched catalog, every category name
appears in the rendered view exactly as fetched (headings are set via
textContent), and an item's name and url appear exactly as fetched as
the link's literal text and href attribute value provided the url
contains no double quote and the name contains no less-than character;
the renderer interpolates both into innerHTML markup without escaping,
so a double quote in a url ends the href attribute value early and a
less-than in a name opens a tag in place of the remaining text (see
the counterexample, which exhibits both failures).  No client-side
catalog state survives between reloads: the container after a load is
independent of its previous contents. -/
theorem C1_lossless_projection (prev : List RNode) (d : Catalog) (cat : String)
    (items : List Item) (hmem : (cat, items) ∈ d) :
    RNode.heading cat ∈ domAfterLoad prev d ∧
    (∃ rows, RNode.itemList rows ∈ domAfterLoad prev d ∧
      ∀ it ∈ items, '"' ∉ it.url.toList → '<' ∉ it.name.toList →
        ∃ row ∈ rows, linkHref row.html = some it.url ∧ linkText row.html = some it.name) ∧
    domAfterLoad prev d = domAfterLoad [] d := by
  refine ⟨?_, ⟨items.map (mkRow cat), ?_, ?_⟩, ?_⟩
  · rw [domAfterLoad_sections]
    exact mem_sectionsOf _ (cat, items) _ hmem (by simp [sectionNodes])
  · rw [domAfterLoad_sections]
    exact mem_sectionsOf _ (cat, items) _ hmem (by simp [sectionNodes])
  · intro it hit h1 h2
    exact ⟨mkRow cat it, List.mem_map.mpr ⟨it, hit, rfl⟩,
      linkHref_anchor _ _ h1, linkText_anchor _ _ h1 h2⟩
  · rw [domAfterLoad_sections, domAfterLoad_sections]

/-- Claim C1 is false as stated, and each proviso of the amended claim
is forced by a concrete failure.  For the catalog mapping category T to
the item named X with url a-quote-b and the item named a-less-than-b
with url u: the first row's href attribute value is the string a, not
the fetched url, because the unescaped quote ends the attribute early;
and the second row's literal link text is the string a, not the fetched
name, because the unescaped less-than opens a tag in place of the rest
of the name.  So neither value appears in the rendered output exactly
as fetched. -/
theorem C1_counterexample :
    domAfterLoad [] [("T", [Item.mk "X" "a\"b", Item.mk "a<b" "u"])]
      = [RNode.heading "T",
         RNode.itemList [mkRow "T" (Item.mk "X" "a\"b"), mkRow "T" (Item.mk "a<b" "u")],
         RNode.textInput "Name",
         RNode.textInput "URL",
         RNode.button "Add" (Handler.addItemInputs "T"),
         RNode.button "Delete Category" (Handler.delCategory "T")] ∧
    (linkHref (mkRow "T" (Item.mk "X" "a\"b")).html = some "a" ∧
     linkHref (mkRow "T" (Item.mk "X" "a\"b")).html ≠ some "a\"b") ∧
    (linkText (mkRow "T" (Item.mk "a<b" "u")).html = some "a" ∧
     linkText (mkRow "T" (Item.mk "a<b" "u")).html ≠ some "a<b") := by
  exact ⟨by decide, ⟨by decide, by decide⟩, ⟨by decide, by decide⟩⟩

/-- Witness for C1 at a concrete benign catalog; the url contains a
greater-than character, which the amended claim covers. -/
theorem C1_lossless_projection_witness :
    ((("Tools", [Item.mk "X" "http://x/a>b"]) : String × List Item) ∈
        ([("Tools", [Item.mk "X" "http://x/a>b"])] : Catalog)) ∧
    (RNode.heading "Tools" ∈ domAfterLoad [] [("Tools", [Item.mk "X" "http://x/a>b"])] ∧
     (∃ rows, RNode.itemList rows ∈ domAfterLoad [] [("Tools", [Item.mk "X" "http://x/a>b"])] ∧
       ∀ it ∈ [Item.mk "X" "http://x/a>b"],
         '"' ∉ it.url.toList → '<' ∉ it.name.toList →
         ∃ row ∈ rows, linkHref row.html = some it.url ∧ linkText row.html = some it.name) ∧
     domAfterLoad [] [("Tools", [Item.mk "X" "http://x/a>b"])]
       = domAfterLoad [] [("Tools", [Item.mk "X" "http://x/a>b"])]) :=
  ⟨by decide, C1_lossless_projection [] [("Tools", [Item.mk "X" "http://x/a>b"])] "Tools"
      [Item.mk "X" "http://x/a>b"] (by decide)⟩

/-- Witness for C7 at a concrete catalog where categories A and B both
contain an item named i1. -/
theorem C7_no_cross_category_leakage_witness :
    ("B" : String) ≠ "A" ∧
    (requestsOf (deleteItem "A" "i1" "")
      = [Request.post "/api/delete_item" "application/json"
          [("category", "A"), ("name", "i1")]] ∧
     (serverDeleteItem [("A", [Item.mk "i1" "u1"]), ("B", [Item.mk "i1" "u2"])] "A" "i1").filter
        (fun p => p.1 == "B")
       = ([("A", [Item.mk "i1" "u1"]), ("B", [Item.mk "i1" "u2"])] : Catalog).filter
        (fun p => p.1 == "B") ∧
     ∀ items', ("B", items') ∈ ([("A", [Item.mk "i1" "u1"]), ("B", [Item.mk "i1" "u2"])] : Catalog) →
       RNode.itemList (items'.map (mkRow "B")) ∈
         domAfterLoad []
           (serverDeleteItem [("A", [Item.mk "i1" "u1"]), ("B", [Item.mk "i1" "u2"])] "A" "i1")) :=
  ⟨by decide, C7_no_cross_category_leakage
      [("A", [Item.mk "i1" "u1"]), ("B", [Item.mk "i1" "u2"])] "A" "B" "i1" [] (by decide)⟩

/-- Witness for C9 at a concrete catalog. -/
theorem C9_handler_binding_witness :
    ((("Tools", [Item.mk "X" "http://x"]) : String × List Item) ∈
        ([("Tools", [Item.mk "X" "http://x"])] : Catalog)) ∧
    ((∃ rows, RNode.itemList rows ∈ domAfterLoad [] [("Tools", [Item.mk "X" "http://x"])] ∧
        rows = [Item.mk "X" "http://x"].map (mkRow "Tools") ∧
        ∀ it ∈ [Item.mk "X" "http://x"],
          (mkRow "Tools" it).onDelete = Handler.delItem "Tools" it.name ∧
          requestsOf (dispatch (Handler.delItem "Tools" it.name) "N" "U" "")
            = [Request.post "/api/delete_item" "application/json"
                [("category", "Tools"), ("name", it.name)]]) ∧
     (RNode.button "Add" (Handler.addItemInputs "Tools")
          ∈ domAfterLoad [] [("Tools", [Item.mk "X" "http://x"])] ∧
       requestsOf (dispatch (Handler.addItemInputs "Tools") "N" "U" "")
         = [Request.post "/api/add_item" "application/json"
             [("category", "Tools"), ("name", "N"), ("url", "U")]]) ∧
     (RNode.button "Delete Category" (Handler.delCategory "Tools")
          ∈ domAfterLoad [] [("Tools", [Item.mk "X" "http://x"])] ∧
       requestsOf (dispatch (Handler.delCategory "Tools") "N" "U" "")
         = [Request.post "/api/delete_category" "application/json" [("name", "Tools")]])) :=
  ⟨by decide, C9_handler_binding [] [("Tools", [Item.mk "X" "http://x"])] "Tools"
      [Item.mk "X" "http://x"] "N" "U" "" (by decide)⟩
